import Mathlib

/-!
# Verification of the p2pool accounting core

This file gives a shallow embedding of the accounting core of a dual-currency
mining pool (currencies `xmr` and `tari`), consisting of:

* the relational schema of `init_db.sql` together with the migrations
  `add_payment_fields.sql` (payment `status` / `note` columns) and the fee/value
  migration (account `fee` column with default 0.08, block `value` column) —
  rows are Lean structures, SQL constraints (PRIMARY KEY, UNIQUE, NOT NULL,
  CHECK, FOREIGN KEY) are predicates over tables and database states;
* the `update_updated_at_column` trigger function of `init_db.sql`;
* the reward distributor `DistributeBlock` and the payment-workflow state
  machine, whose code is not part of the repository and which are therefore
  modelled from the specification document.

Monetary DECIMAL columns are embedded as integers counting atomic fixed-point
units: DECIMAL(20,12) amounts in units of 10^-12, DECIMAL(20,8) in units of
10^-8, and the DECIMAL(5,4) fee fraction in units of 10^-4 (so 0.08 is 800).
-/

namespace P2Pool

/-- The two currency tags supported by the pool.  The schema's CHECK
constraints admit exactly the strings `'xmr'` and `'tari'`. -/
inductive Currency
  | xmr
  | tari
deriving DecidableEq, Repr

/-! ## Reward distributor (modelled from the spec)

The repository contains only the schema and migrations; the reward
distribution logic itself is absent, so it is modelled from the
specification, §4.1. -/

/-- Modelled from the spec: scale of the DECIMAL(5,4) account fee fraction
(`0 ≤ fee < 1`); a fee of 0.08 is the integer 800. -/
def feeScale : Nat := 10000

/-- Modelled from the spec: one entry of the `shareTable` input of
`DistributeBlock` — a username, its non-negative share count contributed since
the prior block of the currency, and the account's fee fraction (in `feeScale`
units) read at distribution time.  The distributor code is missing from the
repository. -/
structure ShareEntry where
  username : String
  shares : Nat
  fee : Nat
deriving DecidableEq, Repr

/-- Modelled from the spec: a reward entry computed by the distributor for one
contributing account.  `gross` is the share-proportional amount (plus the
rounding residual for the largest contributor), `retained` the pool fee
deducted from it, `credited` the amount actually credited to the account;
amounts are in atomic currency units.  The distributor code is missing from
the repository. -/
structure RewardEntry where
  username : String
  shares : Nat
  gross : Nat
  retained : Nat
  credited : Nat
deriving DecidableEq, Repr

/-- Total share count of a share table. -/
def totalShares (tbl : List ShareEntry) : Nat :=
  (tbl.map (·.shares)).sum

/-- The largest share count appearing in a share table (0 when empty). -/
def maxShares (tbl : List ShareEntry) : Nat :=
  (tbl.map (·.shares)).foldr Nat.max 0

/-- Modelled from the spec: the reward entry for one account given its gross
amount — the pool retains `gross * fee` (rounded down to an atomic unit) and
credits the account the rest, so `credited + retained = gross` exactly. -/
def mkRewardEntry (e : ShareEntry) (gross : Nat) : RewardEntry :=
  { username := e.username
    shares := e.shares
    gross := gross
    retained := gross * e.fee / feeScale
    credited := gross - gross * e.fee / feeScale }

/-- Modelled from the spec: build one reward entry per share-table entry; each
account's gross amount is `shares * psv`, and the rounding residual is added
to the first entry holding the largest share count (the Boolean records
whether the residual has already been assigned). -/
def buildEntries (psv residual maxS : Nat) : Bool → List ShareEntry → List RewardEntry
  | _, [] => []
  | true, e :: rest =>
      mkRewardEntry e (e.shares * psv) :: buildEntries psv residual maxS true rest
  | false, e :: rest =>
      if e.shares = maxS then
        mkRewardEntry e (e.shares * psv + residual) :: buildEntries psv residual maxS true rest
      else
        mkRewardEntry e (e.shares * psv) :: buildEntries psv residual maxS false rest

/-- Modelled from the spec: the block record written by the distributor —
total reward (atomic units), currency tag, and total shares counted for the
reward period. -/
structure BlockRecord where
  currency : Currency
  height : Nat
  reward : Nat
  total_shares : Nat
deriving DecidableEq, Repr

/-- Modelled from the spec: the output of a successful distribution — the
block row and one reward entry per contributing account. -/
structure DistResult where
  block : BlockRecord
  entries : List RewardEntry
deriving DecidableEq, Repr

/-- Modelled from the spec: `DistributeBlock(currency, height, totalReward,
shareTable)` (§4.1) — the distributor code is missing from the repository.
`existing` is the set of (currency, height) pairs already processed; the call
rejects duplicates ("already processed"), rejects a non-positive `totalReward`
and a zero-share table, computes `perShareValue = totalReward / sum(shares)`
rounded down to an atomic unit, and assigns the rounding residual to the
largest-share contributor. -/
def DistributeBlock (existing : List (Currency × Nat)) (currency : Currency) (height : Nat)
    (totalReward : Int) (shareTable : List ShareEntry) : Except String DistResult :=
  if (currency, height) ∈ existing then
    Except.error "already processed"
  else if totalReward ≤ 0 then
    Except.error "totalReward must be positive"
  else if totalShares shareTable = 0 then
    Except.error "a block with zero shares cannot be distributed"
  else
    let r := totalReward.toNat
    let s := totalShares shareTable
    let psv := r / s
    Except.ok
      { block := { currency := currency, height := height, reward := r, total_shares := s }
        entries := buildEntries psv (r - psv * s) (maxShares shareTable) false shareTable }

/-- The spec's concrete scenario input: shares {alice: 3, bob: 1}, both
accounts at the default fee 0.08 (= 800 in `feeScale` units). -/
def demoTable : List ShareEntry :=
  [{ username := "alice", shares := 3, fee := 800 },
   { username := "bob", shares := 1, fee := 800 }]

/-- The distribution the model computes for the concrete scenario: reward
10.000000 (= 10000000 atomic units of 10^-6) at height 1000, shares 3 : 1,
fee 0.08 on both accounts.  The per-share value is 10000000 / 4 = 2500000
with residual 0; alice grosses 7500000 and is credited 6900000, bob grosses
2500000 and is credited 2300000; the pool retains 600000 + 200000 = 800000. -/
def demoResult : DistResult :=
  { block := { currency := Currency.xmr, height := 1000, reward := 10000000, total_shares := 4 }
    entries :=
      [{ username := "alice", shares := 3, gross := 7500000, retained := 600000,
         credited := 6900000 },
       { username := "bob", shares := 1, gross := 2500000, retained := 200000,
         credited := 2300000 }] }

/-! ## The relational schema of `init_db.sql` with its migrations

Each table row is a structure; a column without NOT NULL is an `Option`.
Timestamps are abstract instants (`Int`).  The constraint predicates below
transcribe the PRIMARY KEY / UNIQUE / CHECK / FOREIGN KEY clauses. -/

/-- A row of the `account` table after the fee migration: `id SERIAL PRIMARY
KEY`, `username VARCHAR(255) NOT NULL UNIQUE`, `xmr_balance` and
`tari_balance DECIMAL(20,12) DEFAULT 0` (nullable, 10^-12 units),
`created_at` / `updated_at TIMESTAMP DEFAULT CURRENT_TIMESTAMP` (nullable),
and the migrated `fee DECIMAL(5,4) DEFAULT 0.08` (nullable, 10^-4 units). -/
structure AccountRow where
  id : Int
  username : String
  xmr_balance : Option Int
  tari_balance : Option Int
  created_at : Option Int
  updated_at : Option Int
  fee : Option Int
deriving DecidableEq, Repr

/-- A row of the `blocks` table after the value migration: `block_height
BIGINT PRIMARY KEY`, `rewards DECIMAL(20,12) NOT NULL`, `type VARCHAR(10) NOT
NULL CHECK (type IN ('xmr','tari'))`, nullable `time` and `created_at`
timestamps, `total_shares BIGINT NOT NULL`, and the migrated nullable
`value DECIMAL(20,8)` (10^-8 units). -/
structure BlockRow where
  block_height : Int
  rewards : Int
  type : String
  time : Option Int
  total_shares : Int
  created_at : Option Int
  value : Option Int
deriving DecidableEq, Repr

/-- A row of the `rewards` table: `id SERIAL PRIMARY KEY`, `block_height
BIGINT NOT NULL` (foreign key to `blocks(block_height)` — the key does not
include the currency), `type VARCHAR(10) NOT NULL CHECK (...)`, `username
VARCHAR(255) NOT NULL` (foreign key to `account(username)`), `reward
DECIMAL(20,12) NOT NULL`, `shares BIGINT NOT NULL`, nullable `created_at`. -/
structure RewardRow where
  id : Int
  block_height : Int
  type : String
  username : String
  reward : Int
  shares : Int
  created_at : Option Int
deriving DecidableEq, Repr

/-- A row of the `payment` table after `add_payment_fields.sql`: `id SERIAL
PRIMARY KEY`, `username VARCHAR(255) NOT NULL` (foreign key to
`account(username)`), `type VARCHAR(10) NOT NULL CHECK (...)`, `amount
DECIMAL(20,12) NOT NULL`, `txid VARCHAR(255) NOT NULL`, nullable `time` and
`created_at`, and the migrated nullable `status VARCHAR(20) CHECK (status IN
('pending','completed','failed'))` and nullable `note TEXT`. -/
structure PaymentRow where
  id : Int
  username : String
  type : String
  amount : Int
  txid : Option String
  time : Option Int
  created_at : Option Int
  status : Option String
  note : Option String
deriving DecidableEq, Repr

/-- The CHECK constraint `type IN ('xmr', 'tari')` shared by the `blocks`,
`rewards` and `payment` tables. -/
@[reducible]
def typeOk (t : String) : Bool :=
  t == "xmr" || t == "tari"

/-- The CHECK constraint `status IN ('pending', 'completed', 'failed')` on
the migrated `payment.status` column; as in SQL, a NULL status passes the
CHECK (the migration adds the column as nullable). -/
@[reducible]
def statusOk (s : Option String) : Bool :=
  match s with
  | none => true
  | some v => v == "pending" || v == "completed" || v == "failed"

/-- Table-level constraints of `account`: the SERIAL PRIMARY KEY and the
UNIQUE constraint on `username`. -/
@[reducible]
def accountTableOk (accounts : List AccountRow) : Prop :=
  (accounts.map (·.id)).Nodup ∧ (accounts.map (·.username)).Nodup

/-- Table-level constraints of `blocks`: `block_height BIGINT PRIMARY KEY` —
the primary key covers the height column alone, not the currency tag — and
the CHECK constraint on `type`. -/
@[reducible]
def blocksTableOk (blocks : List BlockRow) : Prop :=
  (blocks.map (·.block_height)).Nodup ∧ ∀ b ∈ blocks, typeOk b.type = true

/-- Row-local constraints of a `payment` row: the CHECK on `type`, `txid
VARCHAR(255) NOT NULL`, and the CHECK on the migrated `status` column. -/
@[reducible]
def paymentRowOk (p : PaymentRow) : Prop :=
  typeOk p.type = true ∧ p.txid ≠ none ∧ statusOk p.status = true

/-- Constraints of the `rewards` table: PRIMARY KEY on `id`, CHECK on `type`,
`FOREIGN KEY (block_height) REFERENCES blocks(block_height)` — only the
height, not the currency, is covered by the foreign key — and
`FOREIGN KEY (username) REFERENCES account(username)`. -/
@[reducible]
def rewardsTableOk (rewards : List RewardRow) (blocks : List BlockRow)
    (accounts : List AccountRow) : Prop :=
  (rewards.map (·.id)).Nodup ∧
    ∀ r ∈ rewards, typeOk r.type = true ∧
      (∃ b ∈ blocks, b.block_height = r.block_height) ∧
      ∃ a ∈ accounts, a.username = r.username

/-- Constraints of the `payment` table: PRIMARY KEY on `id`, the row-local
constraints, and `FOREIGN KEY (username) REFERENCES account(username)`. -/
@[reducible]
def paymentTableOk (payments : List PaymentRow) (accounts : List AccountRow) : Prop :=
  (payments.map (·.id)).Nodup ∧
    ∀ p ∈ payments, paymentRowOk p ∧ ∃ a ∈ accounts, a.username = p.username

/-- A database state: the four tables created by `init_db.sql`. -/
structure LedgerDB where
  accounts : List AccountRow
  blocks : List BlockRow
  rewards : List RewardRow
  payments : List PaymentRow
deriving DecidableEq, Repr

/-- All schema constraints of `init_db.sql` and its migrations together. -/
@[reducible]
def schemaOk (db : LedgerDB) : Prop :=
  accountTableOk db.accounts ∧ blocksTableOk db.blocks ∧
    rewardsTableOk db.rewards db.blocks db.accounts ∧
    paymentTableOk db.payments db.accounts

/-- The `update_updated_at_column` trigger function of `init_db.sql`,
installed BEFORE UPDATE FOR EACH ROW on `account`: it sets
`NEW.updated_at = CURRENT_TIMESTAMP` and returns NEW otherwise unchanged, so
it applies to every UPDATE regardless of the columns the statement names.
`now` is the value of CURRENT_TIMESTAMP; `new` is the proposed row. -/
def update_updated_at_column (now : Int) (new : AccountRow) : AccountRow :=
  { new with updated_at := some now }

/-- The migrated default of the `account.fee` column: `DECIMAL(5,4) DEFAULT
0.08`, i.e. 800 in 10^-4 units. -/
def defaultFee : Int := 800

/-- An INSERT into `account` naming only `id` and `username` takes every
other column's default: balances 0, timestamps CURRENT_TIMESTAMP (here
`now`), and — after `ALTER TABLE account ADD COLUMN fee DECIMAL(5,4) DEFAULT
0.08` — fee 0.08. -/
def insertAccountDefaults (id : Int) (username : String) (now : Int) : AccountRow :=
  { id := id
    username := username
    xmr_balance := some 0
    tari_balance := some 0
    created_at := some now
    updated_at := some now
    fee := some defaultFee }

/-- The fee migration's backfill on one row:
`UPDATE account SET fee = 0.08 WHERE fee IS NULL`. -/
def backfillFeeRow (a : AccountRow) : AccountRow :=
  if a.fee = none then { a with fee := some defaultFee } else a

/-- The fee migration's backfill over the whole `account` table. -/
def backfillFee (accounts : List AccountRow) : List AccountRow :=
  accounts.map backfillFeeRow

/-- A well-formed `blocks` row of currency `xmr` at height 1000 (rewards
10.000000 in 10^-12 units, 4 total shares). -/
def blockXmr1000 : BlockRow :=
  { block_height := 1000, rewards := 10000000000000, type := "xmr", time := none,
    total_shares := 4, created_at := none, value := none }

/-- A well-formed `blocks` row of currency `tari` at the same height 1000. -/
def blockTari1000 : BlockRow :=
  { block_height := 1000, rewards := 5000000000000, type := "tari", time := none,
    total_shares := 4, created_at := none, value := none }

/-- The account row for alice with all column defaults. -/
def aliceRow : AccountRow := insertAccountDefaults 1 "alice" 0

/-- A `rewards` row tagged `tari` referencing block height 1000 — the foreign
key only checks the height, so it may resolve to a block tagged `xmr`. -/
def mismatchReward : RewardRow :=
  { id := 1, block_height := 1000, type := "tari", username := "alice",
    reward := 5000000000000, shares := 4, created_at := none }

/-- A database state in which the only reward row is tagged `tari` while the
block it references is tagged `xmr`. -/
def mismatchDB : LedgerDB :=
  { accounts := [aliceRow], blocks := [blockXmr1000], rewards := [mismatchReward],
    payments := [] }

/-- A pending payment row carrying no transaction id yet: what the Payment
Workflow would have to store between Issue and Submit. -/
def pendingNoTxid : PaymentRow :=
  { id := 1, username := "alice", type := "xmr", amount := 2500000000000,
    txid := none, time := none, created_at := none, status := some "pending",
    note := none }

/-! ## Payment workflow and balance accumulator (modelled from the spec)

The repository holds no reward-credit or payment-workflow code, so the
operations of spec §4.1–§4.3 are modelled as a state machine over account
balances and payment rows. -/

/-- Modelled from the spec: the payment lifecycle states of §4.3 — `pending`,
`completed`, `failed` (the latter two terminal).  The workflow code is
missing from the repository. -/
inductive WStatus
  | pending
  | completed
  | failed
deriving DecidableEq, Repr

/-- Modelled from the spec: an account as the workflow sees it — a username
and one balance per currency (atomic units; `Int` so that non-negativity is a
property to prove, not a typing artifact). -/
structure WAccount where
  username : String
  xmr_balance : Int
  tari_balance : Int
deriving DecidableEq, Repr

/-- Modelled from the spec: a payment record — generated id, username,
currency, amount debited, the transaction id populated only on confirmation,
the failure note populated only on rejection, and the lifecycle status. -/
structure WPayment where
  id : Nat
  username : String
  currency : Currency
  amount : Int
  txid : Option String
  note : Option String
  status : WStatus
deriving DecidableEq, Repr

/-- Modelled from the spec: the mutable ledger state the workflow acts on —
accounts, payment rows, and the next generated payment id. -/
structure WState where
  accounts : List WAccount
  payments : List WPayment
  nextId : Nat
deriving DecidableEq, Repr

/-- The balance of an account in one currency. -/
def getBal (a : WAccount) : Currency → Int
  | Currency.xmr => a.xmr_balance
  | Currency.tari => a.tari_balance

/-- Add `amt` to an account's balance in one currency. -/
def addBal (a : WAccount) (c : Currency) (amt : Int) : WAccount :=
  match c with
  | Currency.xmr => { a with xmr_balance := a.xmr_balance + amt }
  | Currency.tari => { a with tari_balance := a.tari_balance + amt }

/-- Set an account's balance in one currency to zero (a payout debits
exactly the account's positive balance, §4.3 Issue). -/
def zeroBal (a : WAccount) (c : Currency) : WAccount :=
  match c with
  | Currency.xmr => { a with xmr_balance := 0 }
  | Currency.tari => { a with tari_balance := 0 }

/-- Modelled from the spec: the operations that touch balances and payment
rows — reward credit (distributor side effect, §4.1), payment Issue, Confirm
and Reject (§4.3).  Submit performs no ledger write and is omitted. -/
inductive WOp
  | credit (username : String) (currency : Currency) (amount : Nat)
  | issue (username : String) (currency : Currency)
  | confirm (id : Nat) (txid : String)
  | reject (id : Nat) (note : String)

/-- Modelled from the spec: one atomic transaction of the workflow.
`credit` adds a non-negative reward amount to the account's balance,
creating the account on first credit; `issue` debits an account's entire
positive balance in one currency and appends a `pending` payment for exactly
that amount; `confirm` moves a pending payment to `completed`, recording the
transaction id; `reject` moves a pending payment to `failed`, recording the
note and crediting the debited amount back to the account.  Confirm and
Reject are no-ops on a payment that is not `pending`. -/
def step (s : WState) : WOp → WState
  | WOp.credit u c amt =>
      if s.accounts.any (fun a => a.username == u) then
        { s with accounts :=
            s.accounts.map (fun a => if a.username = u then addBal a c amt else a) }
      else
        { s with accounts :=
            s.accounts ++ [addBal { username := u, xmr_balance := 0, tari_balance := 0 } c amt] }
  | WOp.issue u c =>
      match s.accounts.find? (fun a => a.username == u) with
      | none => s
      | some a =>
          if 0 < getBal a c then
            { accounts := s.accounts.map (fun b => if b.username = u then zeroBal b c else b)
              payments := s.payments ++
                [{ id := s.nextId, username := u, currency := c, amount := getBal a c,
                   txid := none, note := none, status := WStatus.pending }]
              nextId := s.nextId + 1 }
          else s
  | WOp.confirm i t =>
      { s with payments :=
          s.payments.map (fun p =>
            if p.id = i ∧ p.status = WStatus.pending then
              { p with status := WStatus.completed, txid := some t }
            else p) }
  | WOp.reject i n =>
      match s.payments.find? (fun p => p.id == i && p.status == WStatus.pending) with
      | none => s
      | some p =>
          { s with
            payments :=
              s.payments.map (fun q =>
                if q.id = i ∧ q.status = WStatus.pending then
                  { q with status := WStatus.failed, note := some n }
                else q)
            accounts :=
              s.accounts.map (fun a =>
                if a.username = p.username then addBal a p.currency p.amount else a) }

/-- The initial ledger state: no accounts, no payments. -/
def initState : WState :=
  { accounts := [], payments := [], nextId := 0 }

/-- Run a sequence of workflow operations from the initial state. -/
def run (ops : List WOp) : WState :=
  ops.foldl step initState

/-- Look a payment up by its id. -/
def findPayment (s : WState) (i : Nat) : Option WPayment :=
  s.payments.find? (fun p => p.id == i)

/-- The invariant the workflow maintains: every stored balance and every
payment amount is non-negative. -/
def WInv (s : WState) : Prop :=
  (∀ a ∈ s.accounts, 0 ≤ a.xmr_balance ∧ 0 ≤ a.tari_balance) ∧
    ∀ p ∈ s.payments, 0 ≤ p.amount

/-- Whether a distributor call was rejected. -/
def isError {α : Type} : Except String α → Bool
  | Except.error _ => true
  | Except.ok _ => false

/-- A schema-valid completed payment row (txid present, status in the CHECK
list). -/
def completedPayment : PaymentRow :=
  { id := 2, username := "alice", type := "xmr", amount := 2500000000000,
    txid := some "tx-1", time := none, created_at := none,
    status := some "completed", note := none }

/-- A concrete completed workflow payment (terminal state). -/
def wPayDone : WPayment :=
  { id := 1, username := "alice", currency := Currency.xmr, amount := 2500000000000,
    txid := some "tx-1", note := none, status := WStatus.completed }

/-- A concrete workflow state holding the completed payment `wPayDone`. -/
def wStateDone : WState :=
  { accounts := [{ username := "alice", xmr_balance := 0, tari_balance := 0 }],
    payments := [wPayDone], nextId := 2 }

/-- A concrete operation sequence: credit alice, pay her out, have the
transactor reject the payment, then credit bob. -/
def demoOps : List WOp :=
  [WOp.credit "alice" Currency.xmr 2500000,
   WOp.issue "alice" Currency.xmr,
   WOp.reject 0 "invalid address",
   WOp.credit "bob" Currency.tari 100]

/-! ## Theorems -/

/-- C8: the `update_updated_at_column` trigger fires on every UPDATE of an
`account` row regardless of which columns the statement names, sets the
stored `updated_at` column to the current timestamp, and changes no column
other than `updated_at`. -/
theorem update_trigger_frame (now : Int) (new : AccountRow) :
    (update_updated_at_column now new).updated_at = some now ∧
    (update_updated_at_column now new).id = new.id ∧
    (update_updated_at_column now new).username = new.username ∧
    (update_updated_at_column now new).xmr_balance = new.xmr_balance ∧
    (update_updated_at_column now new).tari_balance = new.tari_balance ∧
    (update_updated_at_column now new).created_at = new.created_at ∧
    (update_updated_at_column now new).fee = new.fee :=
  ⟨rfl, rfl, rfl, rfl, rfl, rfl, rfl⟩

/-- C10: an `account` row created without an explicit fee value has fee
exactly 0.08 (`defaultFee` = 800 in 10^-4 units), and the fee migration's
backfill maps every row whose fee is NULL to the same row with fee 0.08 —
all other columns unchanged — while leaving rows with a non-NULL fee
untouched. -/
theorem fee_default_and_backfill :
    (∀ id uname now, (insertAccountDefaults id uname now).fee = some defaultFee) ∧
    (∀ a : AccountRow, a.fee = none → backfillFeeRow a = { a with fee := some defaultFee }) ∧
    (∀ a : AccountRow, a.fee ≠ none → backfillFeeRow a = a) ∧
    ∀ accounts, backfillFee accounts = accounts.map backfillFeeRow := by
  refine ⟨fun _ _ _ => rfl, fun a ha => ?_, fun a ha => ?_, fun _ => rfl⟩
  · simp [backfillFeeRow, ha]
  · simp [backfillFeeRow, ha]

/-- Witness for C10 at a concrete row: a NULL-fee copy of alice's row is
backfilled to fee 0.08. -/
theorem fee_default_and_backfill_witness :
    ({ aliceRow with fee := none } : AccountRow).fee = none ∧
    backfillFeeRow { aliceRow with fee := none } =
      { { aliceRow with fee := none } with fee := some defaultFee } :=
  ⟨rfl, fee_default_and_backfill.2.1 { aliceRow with fee := none } rfl⟩

/-- C1 counterexample: two individually well-formed `blocks` rows of
different currencies sharing height 1000 violate the table constraints —
`block_height BIGINT PRIMARY KEY` covers the height alone, so the two rows
cannot both be stored, refuting the claim that height values are independent
per currency. -/
theorem block_composite_identity_counterexample :
    typeOk blockXmr1000.type = true ∧ typeOk blockTari1000.type = true ∧
    blockXmr1000.type ≠ blockTari1000.type ∧
    blockXmr1000.block_height = blockTari1000.block_height ∧
    ¬ blocksTableOk [blockXmr1000, blockTari1000] := by
  decide

/-- C1 amended: in the schema, block identity is `block_height` alone —
equality of height already implies the same row, so in particular equality of
(currency, height) implies the same row and a given (currency, height) pair
is recorded at most once; but two blocks of different currencies can never be
stored with the same height value. -/
theorem block_height_sole_identity (blocks : List BlockRow)
    (hok : blocksTableOk blocks) (b1 b2 : BlockRow)
    (h1 : b1 ∈ blocks) (h2 : b2 ∈ blocks)
    (hh : b1.block_height = b2.block_height) : b1 = b2 :=
  List.inj_on_of_nodup_map hok.1 h1 h2 hh

/-- Witness for C1's amended theorem on a concrete one-row table. -/
theorem block_height_sole_identity_witness :
    blocksTableOk [blockXmr1000] ∧ blockXmr1000 = blockXmr1000 :=
  ⟨by decide,
   block_height_sole_identity [blockXmr1000] (by decide) blockXmr1000 blockXmr1000
     (by decide) (by decide) rfl⟩

/-- C5 counterexample: a pending payment row whose transaction id is absent
is rejected by the schema — `txid VARCHAR(255) NOT NULL` — so a storable
payment row must carry a transaction id even before submission. -/
theorem payment_txid_nullable_counterexample :
    pendingNoTxid.status = some "pending" ∧ pendingNoTxid.txid = none ∧
    ¬ paymentRowOk pendingNoTxid := by
  decide

/-- C5 amended: every storable payment row carries a transaction id — the
`txid` column is NOT NULL, so the schema cannot represent a pending payment
that has not yet received a transaction id from the transactor. -/
theorem payment_txid_not_null (p : PaymentRow) (h : paymentRowOk p) :
    p.txid ≠ none :=
  h.2.1

/-- Witness for C5's amended theorem on a concrete completed payment row. -/
theorem payment_txid_not_null_witness :
    paymentRowOk completedPayment ∧ completedPayment.txid ≠ none :=
  ⟨by decide, payment_txid_not_null completedPayment (by decide)⟩

/-- C9: there is a database state satisfying every schema constraint in which
a reward row's currency tag differs from that of the block row it references:
the foreign key from `rewards` to `blocks` covers only `block_height`, so the
schema does not force a reward and its block to agree on currency. -/
theorem reward_block_currency_mismatch_storable :
    schemaOk mismatchDB ∧
    ∃ r ∈ mismatchDB.rewards, ∃ b ∈ mismatchDB.blocks,
      b.block_height = r.block_height ∧ r.type ≠ b.type := by
  decide

/-- C3 counterexample: on the concrete scenario input (total reward
10.000000 = 10000000 atomic units, shares {alice: 3, bob: 1}, fee 0.08 on
both accounts) the distributor modelled from the spec's own algorithm does
not produce the claimed amounts — credited entries are not 5.52 and 1.84,
and the pool does not retain 2.64. -/
theorem distribute_scenario_counterexample :
    DistributeBlock [] Currency.xmr 1000 10000000 demoTable = Except.ok demoResult ∧
    demoResult.entries.map (·.credited) ≠ [5520000, 1840000] ∧
    (demoResult.entries.map (·.retained)).sum ≠ 2640000 :=
  ⟨rfl, by decide, by decide⟩

/-- C3 amended: on the scenario input, the per-share value is
10000000 / 4 = 2500000 exactly, so the rounding residual is 0 (trivially
assigned to alice as largest contributor); alice grosses 7500000 and is
credited 6900000 (6.90), bob grosses 2500000 and is credited 2300000 (2.30),
and the pool retains 800000 (0.80) in fees. -/
theorem distribute_scenario_actual :
    DistributeBlock [] Currency.xmr 1000 10000000 demoTable = Except.ok demoResult ∧
    demoResult.entries.map (·.credited) = [6900000, 2300000] ∧
    (demoResult.entries.map (·.retained)).sum = 800000 ∧
    demoResult.block.reward = (demoResult.entries.map (·.gross)).sum :=
  ⟨rfl, by decide, by decide, by decide⟩

/-- C7: on any input whose total reward is non-positive or whose share table
sums to zero shares, `DistributeBlock` reports an error to the caller and
produces no distribution (no block, no entries, no balance updates) — it
never computes a per-share value for a zero-share block. -/
theorem distribute_block_rejects_invalid (existing : List (Currency × Nat))
    (currency : Currency) (height : Nat) (totalReward : Int)
    (shareTable : List ShareEntry)
    (hbad : totalReward ≤ 0 ∨ totalShares shareTable = 0) :
    isError (DistributeBlock existing currency height totalReward shareTable) = true := by
  unfold DistributeBlock
  split
  · rfl
  · split
    · rfl
    · split
      · rfl
      · rename_i hpos hshares
        rcases hbad with h | h
        · exact absurd h hpos
        · exact absurd h hshares

/-- Witness for C7 at the concrete input with total reward 0. -/
theorem distribute_block_rejects_invalid_witness :
    ((0 : Int) ≤ 0 ∨ totalShares demoTable = 0) ∧
    isError (DistributeBlock [] Currency.xmr 1000 0 demoTable) = true :=
  ⟨Or.inl le_rfl,
   distribute_block_rejects_invalid [] Currency.xmr 1000 0 demoTable (Or.inl le_rfl)⟩

/-- The gross amount recorded on a built reward entry. -/
theorem mkRewardEntry_gross (e : ShareEntry) (g : Nat) :
    (mkRewardEntry e g).gross = g := rfl

/-- Fee deduction loses nothing: with a fee fraction of at most 1, the
credited and retained parts of an entry recompose its gross amount. -/
theorem mkRewardEntry_credited_add_retained (e : ShareEntry) (g : Nat)
    (hfee : e.fee ≤ feeScale) :
    (mkRewardEntry e g).credited + (mkRewardEntry e g).retained = g := by
  have hle : g * e.fee / feeScale ≤ g := by
    calc g * e.fee / feeScale ≤ g * feeScale / feeScale :=
          Nat.div_le_div_right (Nat.mul_le_mul_left g hfee)
      _ = g := Nat.mul_div_cancel g (by norm_num [feeScale])
  simp only [mkRewardEntry]
  exact Nat.sub_add_cancel hle

/-- Building entries copies each share count unchanged. -/
theorem buildEntries_shares (psv residual maxS : Nat) (b : Bool) (tbl : List ShareEntry) :
    (buildEntries psv residual maxS b tbl).map (·.shares) = tbl.map (·.shares) := by
  induction tbl generalizing b with
  | nil => cases b <;> rfl
  | cons e rest ih =>
      cases b
      · by_cases h : e.shares = maxS <;> simp [buildEntries, h, mkRewardEntry, ih]
      · simp [buildEntries, mkRewardEntry, ih]

/-- Splitting a sum of credited and retained amounts entrywise. -/
theorem sum_credited_add_retained (l : List RewardEntry) :
    (l.map (·.credited)).sum + (l.map (·.retained)).sum
      = (l.map (fun en => en.credited + en.retained)).sum := by
  induction l with
  | nil => rfl
  | cons e t ih =>
      simp only [List.map_cons, List.sum_cons]
      omega

/-- Entrywise, the reward entries built for a share table of bounded fees
recompose their gross amounts. -/
theorem buildEntries_conserve (psv residual maxS : Nat) (b : Bool) (tbl : List ShareEntry)
    (hfee : ∀ e ∈ tbl, e.fee ≤ feeScale) :
    ∀ en ∈ buildEntries psv residual maxS b tbl,
      en.credited + en.retained = en.gross := by
  induction tbl generalizing b with
  | nil => cases b <;> simp [buildEntries]
  | cons e rest ih =>
      have he : e.fee ≤ feeScale := hfee e (List.mem_cons_self e rest)
      have hrest : ∀ x ∈ rest, x.fee ≤ feeScale :=
        fun x hx => hfee x (List.mem_cons_of_mem e hx)
      cases b
      · by_cases h : e.shares = maxS
        · simp only [buildEntries, if_pos h, List.forall_mem_cons]
          exact ⟨mkRewardEntry_credited_add_retained e _ he, ih true hrest⟩
        · simp only [buildEntries, if_neg h, List.forall_mem_cons]
          exact ⟨mkRewardEntry_credited_add_retained e _ he, ih false hrest⟩
      · simp only [buildEntries, List.forall_mem_cons]
        exact ⟨mkRewardEntry_credited_add_retained e _ he, ih true hrest⟩

/-- Once the residual has been assigned, gross amounts sum to
`totalShares * psv`. -/
theorem buildEntries_gross_sum_true (psv residual maxS : Nat) (tbl : List ShareEntry) :
    ((buildEntries psv residual maxS true tbl).map (·.gross)).sum
      = totalShares tbl * psv := by
  induction tbl with
  | nil => simp [buildEntries, totalShares]
  | cons e rest ih =>
      simp [buildEntries, mkRewardEntry_gross, totalShares, ih, Nat.add_mul]

/-- While the residual is still to be assigned and some entry holds the
largest share count, gross amounts sum to `totalShares * psv + residual`. -/
theorem buildEntries_gross_sum_false (psv residual maxS : Nat) (tbl : List ShareEntry) :
    (∃ e ∈ tbl, e.shares = maxS) →
    ((buildEntries psv residual maxS false tbl).map (·.gross)).sum
      = totalShares tbl * psv + residual := by
  induction tbl with
  | nil =>
      rintro ⟨e, he, -⟩
      exact absurd he (List.not_mem_nil e)
  | cons e rest ih =>
      intro hmem
      by_cases h : e.shares = maxS
      · simp only [buildEntries, if_pos h, List.map_cons, List.sum_cons, mkRewardEntry_gross,
          buildEntries_gross_sum_true, totalShares]
        ring
      · have hmem' : ∃ x ∈ rest, x.shares = maxS := by
          rcases hmem with ⟨x, hx, hxs⟩
          rcases List.mem_cons.mp hx with rfl | hx'
          · exact absurd hxs h
          · exact ⟨x, hx', hxs⟩
        simp only [buildEntries, if_neg h, List.map_cons, List.sum_cons, mkRewardEntry_gross,
          ih hmem', totalShares]
        ring

/-- A non-empty share table contains an entry holding the largest share
count. -/
theorem maxShares_mem (tbl : List ShareEntry) (h : tbl ≠ []) :
    ∃ e ∈ tbl, e.shares = maxShares tbl := by
  induction tbl with
  | nil => exact absurd rfl h
  | cons e rest ih =>
      cases rest with
      | nil => exact ⟨e, List.mem_cons_self e [], by simp [maxShares]⟩
      | cons e2 rest2 =>
          have hm : maxShares (e :: e2 :: rest2)
              = max e.shares (maxShares (e2 :: rest2)) := rfl
          rcases Nat.le_total (maxShares (e2 :: rest2)) e.shares with hle | hle
          · exact ⟨e, List.mem_cons_self e _, by rw [hm, Nat.max_eq_left hle]⟩
          · rcases ih (by simp) with ⟨x, hx, hxs⟩
            exact ⟨x, List.mem_cons_of_mem e hx, by rw [hm, Nat.max_eq_right hle, ← hxs]⟩

/-- C2: for every block the distributor accepts, the credited reward amounts
of its entries plus the fee amounts retained by the pool sum exactly to the
block's recorded total reward — rounding leaves nothing over — and the
entries' share counts sum to the block's recorded total shares. -/
theorem distribute_block_conservation (existing : List (Currency × Nat))
    (currency : Currency) (height : Nat) (totalReward : Int)
    (shareTable : List ShareEntry)
    (hfee : ∀ e ∈ shareTable, e.fee ≤ feeScale) (out : DistResult)
    (hok : DistributeBlock existing currency height totalReward shareTable
      = Except.ok out) :
    (out.entries.map (·.credited)).sum + (out.entries.map (·.retained)).sum
        = out.block.reward ∧
      (out.entries.map (·.shares)).sum = out.block.total_shares := by
  simp only [DistributeBlock] at hok
  split at hok
  · cases hok
  · split at hok
    · cases hok
    · split at hok
      · cases hok
      · rename_i hdup hpos hshares
        cases hok
        dsimp only
        have hne : shareTable ≠ [] := by
          intro hn
          exact hshares (by simp [hn, totalShares])
        constructor
        · rw [sum_credited_add_retained,
            List.map_congr_left (buildEntries_conserve _ _ _ _ _ hfee),
            buildEntries_gross_sum_false _ _ _ _ (maxShares_mem shareTable hne)]
          have hmul : totalReward.toNat / totalShares shareTable * totalShares shareTable
              ≤ totalReward.toNat :=
            Nat.div_mul_le_self totalReward.toNat (totalShares shareTable)
          have hcomm : totalShares shareTable
                * (totalReward.toNat / totalShares shareTable)
              = totalReward.toNat / totalShares shareTable * totalShares shareTable :=
            Nat.mul_comm _ _
          omega
        · rw [buildEntries_shares]
          rfl

/-- Witness for C2 at the spec's concrete scenario. -/
theorem distribute_block_conservation_witness :
    (∀ e ∈ demoTable, e.fee ≤ feeScale) ∧
    ((demoResult.entries.map (·.credited)).sum
          + (demoResult.entries.map (·.retained)).sum = demoResult.block.reward ∧
      (demoResult.entries.map (·.shares)).sum = demoResult.block.total_shares) :=
  ⟨by decide,
   distribute_block_conservation [] Currency.xmr 1000 10000000 demoTable (by decide)
     demoResult rfl⟩

/-- Looking a payment up by id commutes with an id-preserving rewrite of the
payment list. -/
theorem findPayment_step_map (l : List WPayment) (i : Nat) (f : WPayment → WPayment)
    (hf : ∀ q, (f q).id = q.id) (p : WPayment)
    (h : l.find? (fun q => q.id == i) = some p) :
    (l.map f).find? (fun q => q.id == i) = some (f p) := by
  rw [List.find?_map]
  have hcomp : (fun q => q.id == i) ∘ f = fun q => q.id == i := by
    funext q
    simp [Function.comp, hf]
  rw [hcomp, h]
  rfl

/-- C4: payment statuses live in {pending, completed, failed}, and one
workflow step can only leave a payment's row unchanged or move it from
`pending` to `completed` or from `pending` to `failed` — a payment never
leaves a terminal state, under any operation from any state. -/
theorem payment_status_monotone (s : WState) (op : WOp) (i : Nat) (p p' : WPayment)
    (h1 : findPayment s i = some p)
    (h2 : findPayment (step s op) i = some p') :
    (p'.status = WStatus.pending ∨ p'.status = WStatus.completed ∨
        p'.status = WStatus.failed) ∧
      (p' = p ∨ (p.status = WStatus.pending ∧
        (p'.status = WStatus.completed ∨ p'.status = WStatus.failed))) := by
  have htriv : p'.status = WStatus.pending ∨ p'.status = WStatus.completed ∨
      p'.status = WStatus.failed := by
    cases p'.status
    · exact Or.inl rfl
    · exact Or.inr (Or.inl rfl)
    · exact Or.inr (Or.inr rfl)
  refine ⟨htriv, ?_⟩
  dsimp only [findPayment] at h1
  cases op with
  | credit u c amt =>
      dsimp only [step, findPayment] at h2
      split at h2
      · rw [h1] at h2
        injection h2 with h2
        exact Or.inl h2.symm
      · rw [h1] at h2
        injection h2 with h2
        exact Or.inl h2.symm
  | issue u c =>
      dsimp only [step] at h2
      rcases hfind : s.accounts.find? (fun a => a.username == u) with _ | a
      · simp only [hfind] at h2
        dsimp only [findPayment] at h2
        rw [h1] at h2
        injection h2 with h2
        exact Or.inl h2.symm
      · simp only [hfind] at h2
        split at h2
        · dsimp only [findPayment] at h2
          rw [List.find?_append, h1, Option.or_some] at h2
          injection h2 with h2
          exact Or.inl h2.symm
        · dsimp only [findPayment] at h2
          rw [h1] at h2
          injection h2 with h2
          exact Or.inl h2.symm
  | confirm j t =>
      dsimp only [step, findPayment] at h2
      have hf : ∀ q : WPayment,
          (if q.id = j ∧ q.status = WStatus.pending then
            { q with status := WStatus.completed, txid := some t } else q).id = q.id := by
        intro q
        split <;> rfl
      rw [findPayment_step_map s.payments i _ hf p h1] at h2
      injection h2 with h2
      by_cases hcond : p.id = j ∧ p.status = WStatus.pending
      · rw [if_pos hcond] at h2
        refine Or.inr ⟨hcond.2, Or.inl ?_⟩
        rw [← h2]
      · rw [if_neg hcond] at h2
        exact Or.inl h2.symm
  | reject j n =>
      dsimp only [step] at h2
      rcases hfind : s.payments.find? (fun q => q.id == j && q.status == WStatus.pending)
          with _ | p0 <;> rw [hfind] at h2
      · dsimp only [findPayment] at h2
        rw [h1] at h2
        injection h2 with h2
        exact Or.inl h2.symm
      · dsimp only [findPayment] at h2
        have hf : ∀ q : WPayment,
            (if q.id = j ∧ q.status = WStatus.pending then
              { q with status := WStatus.failed, note := some n } else q).id = q.id := by
          intro q
          split <;> rfl
        rw [findPayment_step_map s.payments i _ hf p h1] at h2
        injection h2 with h2
        by_cases hcond : p.id = j ∧ p.status = WStatus.pending
        · rw [if_pos hcond] at h2
          refine Or.inr ⟨hcond.2, Or.inr ?_⟩
          rw [← h2]
        · rw [if_neg hcond] at h2
          exact Or.inl h2.symm

/-- Witness for C4: confirming an already-completed payment again leaves its
row untouched. -/
theorem payment_status_monotone_witness :
    findPayment wStateDone 1 = some wPayDone ∧
    findPayment (step wStateDone (WOp.confirm 1 "tx-2")) 1 = some wPayDone ∧
    ((wPayDone.status = WStatus.pending ∨ wPayDone.status = WStatus.completed ∨
        wPayDone.status = WStatus.failed) ∧
      (wPayDone = wPayDone ∨ (wPayDone.status = WStatus.pending ∧
        (wPayDone.status = WStatus.completed ∨ wPayDone.status = WStatus.failed)))) :=
  ⟨rfl, rfl,
   payment_status_monotone wStateDone (WOp.confirm 1 "tx-2") 1 wPayDone wPayDone rfl rfl⟩

/-- Adding a non-negative amount preserves non-negative balances. -/
theorem addBal_nonneg (a : WAccount) (c : Currency) (amt : Int)
    (ha : 0 ≤ a.xmr_balance ∧ 0 ≤ a.tari_balance) (hamt : 0 ≤ amt) :
    0 ≤ (addBal a c amt).xmr_balance ∧ 0 ≤ (addBal a c amt).tari_balance := by
  obtain ⟨h1, h2⟩ := ha
  cases c <;> dsimp only [addBal] <;> omega

/-- Zeroing one balance preserves non-negative balances. -/
theorem zeroBal_nonneg (a : WAccount) (c : Currency)
    (ha : 0 ≤ a.xmr_balance ∧ 0 ≤ a.tari_balance) :
    0 ≤ (zeroBal a c).xmr_balance ∧ 0 ≤ (zeroBal a c).tari_balance := by
  obtain ⟨h1, h2⟩ := ha
  cases c <;> dsimp only [zeroBal] <;> omega

/-- The empty initial state satisfies the workflow invariant. -/
theorem winv_init : WInv initState :=
  ⟨fun a ha => absurd ha (List.not_mem_nil a), fun p hp => absurd hp (List.not_mem_nil p)⟩

/-- Every workflow operation preserves the invariant: balances stay
non-negative and payment amounts stay non-negative. -/
theorem winv_step (s : WState) (op : WOp) (h : WInv s) : WInv (step s op) := by
  obtain ⟨hacc, hpay⟩ := h
  cases op with
  | credit u c amt =>
      dsimp only [step]
      split
      · refine ⟨?_, hpay⟩
        intro a ha
        rcases List.mem_map.mp ha with ⟨b, hb, rfl⟩
        by_cases hbu : b.username = u
        · simpa [hbu] using addBal_nonneg b c amt (hacc b hb) (Int.natCast_nonneg amt)
        · simpa [hbu] using hacc b hb
      · refine ⟨?_, hpay⟩
        intro a ha
        rcases List.mem_append.mp ha with hmem | hmem
        · exact hacc a hmem
        · have ha2 : a = addBal { username := u, xmr_balance := 0, tari_balance := 0 } c amt := by
            simpa using hmem
          subst ha2
          exact addBal_nonneg _ c amt ⟨le_refl 0, le_refl 0⟩ (Int.natCast_nonneg amt)
  | issue u c =>
      dsimp only [step]
      rcases hfind : s.accounts.find? (fun a => a.username == u) with _ | a
      · simp only [hfind]
        exact ⟨hacc, hpay⟩
      · simp only [hfind]
        split
        · rename_i hbal
          refine ⟨?_, ?_⟩
          · intro b hb
            rcases List.mem_map.mp hb with ⟨b0, hb0, rfl⟩
            by_cases hbu : b0.username = u
            · simpa [hbu] using zeroBal_nonneg b0 c (hacc b0 hb0)
            · simpa [hbu] using hacc b0 hb0
          · intro p hp
            rcases List.mem_append.mp hp with hmem | hmem
            · exact hpay p hmem
            · have hp2 := List.mem_singleton.mp hmem
              subst hp2
              exact le_of_lt hbal
        · exact ⟨hacc, hpay⟩
  | confirm j t =>
      dsimp only [step]
      refine ⟨hacc, ?_⟩
      intro p hp
      rcases List.mem_map.mp hp with ⟨q, hq, rfl⟩
      by_cases hcond : q.id = j ∧ q.status = WStatus.pending
      · simpa [hcond] using hpay q hq
      · simpa [hcond] using hpay q hq
  | reject j n =>
      dsimp only [step]
      rcases hfind : s.payments.find? (fun q => q.id == j && q.status == WStatus.pending)
          with _ | p0
      · simp only [hfind]
        exact ⟨hacc, hpay⟩
      · simp only [hfind]
        have hp0 : 0 ≤ p0.amount := hpay p0 (List.mem_of_find?_eq_some hfind)
        refine ⟨?_, ?_⟩
        · intro a ha
          rcases List.mem_map.mp ha with ⟨b, hb, rfl⟩
          by_cases hbu : b.username = p0.username
          · simpa [hbu] using addBal_nonneg b p0.currency p0.amount (hacc b hb) hp0
          · simpa [hbu] using hacc b hb
        · intro p hp
          rcases List.mem_map.mp hp with ⟨q, hq, rfl⟩
          by_cases hcond : q.id = j ∧ q.status = WStatus.pending
          · simpa [hcond] using hpay q hq
          · simpa [hcond] using hpay q hq

/-- The invariant is preserved along any operation sequence. -/
theorem winv_foldl (ops : List WOp) (s : WState) (h : WInv s) :
    WInv (ops.foldl step s) := by
  induction ops generalizing s with
  | nil => exact h
  | cons op rest ih => exact ih (step s op) (winv_step s op h)

/-- C6: after any sequence of reward credits, payment issues, confirmations
and rejections starting from the empty ledger, every stored account balance
in both currencies is non-negative. -/
theorem balances_nonneg (ops : List WOp) (a : WAccount)
    (ha : a ∈ (run ops).accounts) :
    0 ≤ a.xmr_balance ∧ 0 ≤ a.tari_balance :=
  (winv_foldl ops initState winv_init).1 a ha

/-- Witness for C6 on a concrete operation sequence including a credit, a
payout and a transactor rejection. -/
theorem balances_nonneg_witness :
    ({ username := "alice", xmr_balance := 2500000, tari_balance := 0 } : WAccount)
        ∈ (run demoOps).accounts ∧
      (0 ≤ ({ username := "alice", xmr_balance := 2500000, tari_balance := 0 }
          : WAccount).xmr_balance ∧
        0 ≤ ({ username := "alice", xmr_balance := 2500000, tari_balance := 0 }
          : WAccount).tari_balance) :=
  ⟨by decide,
   balances_nonneg demoOps
     { username := "alice", xmr_balance := 2500000, tari_balance := 0 } (by decide)⟩
